import Mathlib

/-!
# KM2 Image Studio — verification of the core pipeline

Shallow embedding of `image_studio_app_v3.py`: the naming engine
(`sanitize_slug`, `_seo_slug`, `build_filename`, `ai_build_filename`),
the color classifier (`BASIC_PALETTE`, `nearest_basic_color`), the canvas
compositor and single-item processor (`fit_within`, `process_one`), and the
queue orchestrator (`AppBase._process_queue`).

Python strings are modelled as `List Char` (ASCII fragment); machine
integers as `Nat`/`Int`; float expressions are modelled by the exact
rational/integer value they compute on the relevant domain, with a comment
at each such place.
-/

namespace KM2

/-! ## Character helpers (ASCII fragment of Python `str` methods) -/

/-- Model of Python `str.lower` per character (ASCII). -/
def pyLower (c : Char) : Char :=
  if 65 ≤ c.toNat ∧ c.toNat ≤ 90 then Char.ofNat (c.toNat + 32) else c

/-- Model of Python `str.upper` per character (ASCII). -/
def pyUpper (c : Char) : Char :=
  if 97 ≤ c.toNat ∧ c.toNat ≤ 122 then Char.ofNat (c.toNat - 32) else c

def isAsciiAlpha (c : Char) : Bool :=
  (65 ≤ c.toNat && c.toNat ≤ 90) || (97 ≤ c.toNat && c.toNat ≤ 122)

def isLowerAlpha (c : Char) : Bool := 97 ≤ c.toNat && c.toNat ≤ 122

def isDigitChar (c : Char) : Bool := 48 ≤ c.toNat && c.toNat ≤ 57

/-- Python whitespace characters stripped by `str.strip()` (ASCII). -/
def isPySpace (c : Char) : Bool :=
  c = ' ' || c = '\t' || c = '\n' || c = '\r' || c = '\x0b' || c = '\x0c'

/-! ## Hyphen-run collapsing and stripping

`while "--" in s: s = s.replace("--", "-")` replaces every maximal run of
`k ≥ 1` hyphens by a single hyphen, keeping everything else.  That is
exactly `List.destutter` with the relation "not both hyphens": in a hyphen
run only the first hyphen is kept, and every pair not consisting of two
hyphens is left alone. -/

/-- `ddR a b` holds unless `a` and `b` are both `'-'`. -/
def ddR (a b : Char) : Prop := ¬(a = '-' ∧ b = '-')

instance : DecidableRel ddR := fun a b => by unfold ddR; infer_instance

/-- Fixpoint of `while "--" in s: s = s.replace("--", "-")`. -/
def collapseDashes (l : List Char) : List Char := l.destutter ddR

/-- Remove the maximal trailing run of hyphens (the right half of
`str.strip("-")`). -/
def dropTrailingDashes : List Char → List Char
  | [] => []
  | c :: cs =>
    match dropTrailingDashes cs with
    | [] => if c = '-' then [] else [c]
    | d :: ds => c :: d :: ds

/-- Model of `str.strip("-")`: remove leading and trailing hyphen runs. -/
def stripDashes (l : List Char) : List Char :=
  dropTrailingDashes (l.dropWhile (fun c => c = '-'))

/-! ## The two slug functions of the naming engine -/

/-- `keep = "abcdefghijklmnopqrstuvwxyz0123456789-_"` from `sanitize_slug`. -/
def keepChars : List Char := "abcdefghijklmnopqrstuvwxyz0123456789-_".toList

/-- `sanitize_slug` (template naming mode): lowercase, spaces to hyphens,
keep only `keep` characters, collapse `--` runs, strip `-`, and fall back
to `"image"` when the result is empty. -/
def sanitize_slug (s : List Char) : List Char :=
  let s1 := (s.map pyLower).map (fun c => if c = ' ' then '-' else c)
  let s2 := s1.filter (fun c => c ∈ keepChars)
  let s3 := stripDashes (collapseDashes s2)
  if s3 = [] then "image".toList else s3

/-- `_seo_slug` (heuristic naming mode): `text.lower()`, then
`re.sub(r"[^a-z0-9]+", "-", text).strip("-")`, then
`re.sub(r"-\x7b2,\x7d", "-", text)`.  The first `re.sub` maps every maximal
run of non-`[a-z0-9]` characters to a single hyphen, which is the same as
mapping each such character to `'-'` and collapsing hyphen runs; the last
`re.sub` collapses hyphen runs again. -/
def seo_slug (s : List Char) : List Char :=
  let s1 := s.map pyLower
  let s2 := collapseDashes
    (s1.map (fun c => if isLowerAlpha c || isDigitChar c then c else '-'))
  let s3 := stripDashes s2
  collapseDashes s3

/-- Normal form shared by both slug functions: no adjacent hyphens, no
leading hyphen, no trailing hyphen. -/
def SlugNF (l : List Char) : Prop :=
  l.Chain' ddR ∧ (∀ c, l.head? = some c → c ≠ '-') ∧
    (∀ c, l.getLast? = some c → c ≠ '-')

/-! ## Remaining naming-engine pieces -/

/-- `sep.join(L)` for Python lists of strings. -/
def joinSep (sep : List Char) : List (List Char) → List Char
  | [] => []
  | [x] => x
  | x :: y :: ys => x ++ sep ++ joinSep sep (y :: ys)

def digitChar (k : Nat) : Char := "0123456789".toList.getD (k % 10) '0'

/-- Decimal digits of `n`, most significant first; the fuel (always called
with `fuel = n ≥` the number of digits) only makes the recursion
structural. -/
def natDigitsGo : Nat → Nat → List Char
  | 0, n => [digitChar n]
  | fuel + 1, n =>
    if n < 10 then [digitChar n]
    else natDigitsGo fuel (n / 10) ++ [digitChar (n % 10)]

def natDigits (n : Nat) : List Char := natDigitsGo n n

/-- `strftime`-style zero padding to width `w`. -/
def zpad (w n : Nat) : List Char :=
  List.replicate (w - (natDigits n).length) '0' ++ natDigits n

/-- A local-clock reading, the input of `datetime.datetime.now().strftime`. -/
structure PyTime where
  year : Nat
  month : Nat
  day : Nat
  hour : Nat
  minute : Nat
  second : Nat

/-- `timestamp_str`: `strftime("%Y%m%d-%H%M%S")` of the clock reading. -/
def timestamp_str (t : PyTime) : List Char :=
  zpad 4 t.year ++ zpad 2 t.month ++ zpad 2 t.day ++ ['-'] ++
    zpad 2 t.hour ++ zpad 2 t.minute ++ zpad 2 t.second

/-- `strftime("%Y%m%d-%H%M")`, the stamp used by `ai_build_filename`. -/
def stamp_minute (t : PyTime) : List Char :=
  zpad 4 t.year ++ zpad 2 t.month ++ zpad 2 t.day ++ ['-'] ++
    zpad 2 t.hour ++ zpad 2 t.minute

def lbrace : Char := Char.ofNat 123

def rbrace : Char := Char.ofNat 125

/-- The field name between a `\x7b` and the next `\x7d`. -/
def fieldName (rest : List Char) : List Char :=
  rest.takeWhile (fun d => ¬ d = rbrace)

/-- What remains of the template after the closing `\x7d`. -/
def afterField (rest : List Char) : List Char :=
  (rest.dropWhile (fun d => ¬ d = rbrace)).drop 1

/-- Python `str.format` restricted to the keyword fields `product`,
`colors`, `timestamp` that `build_filename` passes (an unknown field
substitutes the empty string where CPython would raise `KeyError`; no
claim exercises one, nor `\x7b\x7b` escapes).  Each step consumes at least
one template character and `afterField` never lengthens the remainder, so
fuel `= tmpl.length` (as passed by `pyFormat`) makes the `(0, _ :: _)`
branch unreachable; it only makes the recursion structural. -/
def pyFormatGo (product colors timestamp : List Char) : Nat → List Char → List Char
  | _, [] => []
  | 0, _ :: _ => []
  | fuel + 1, c :: rest =>
    if c = lbrace then
      (if fieldName rest = "product".toList then product
       else if fieldName rest = "colors".toList then colors
       else if fieldName rest = "timestamp".toList then timestamp
       else []) ++ pyFormatGo product colors timestamp fuel (afterField rest)
    else c :: pyFormatGo product colors timestamp fuel rest

def pyFormat (product colors timestamp tmpl : List Char) : List Char :=
  pyFormatGo product colors timestamp tmpl.length tmpl

/-- `build_filename`: substitute the sanitized product, the hyphen-joined
color names (unsanitized) and the timestamp into the rename template. -/
def build_filename (tmpl product : List Char) (colors : List (List Char))
    (t : PyTime) : List Char :=
  pyFormat (sanitize_slug product) (joinSep ['-'] colors) (timestamp_str t) tmpl

/-- Python `str.strip()` (whitespace, ASCII fragment). -/
def pyStrip (l : List Char) : List Char :=
  ((l.dropWhile isPySpace).reverse.dropWhile isPySpace).reverse

/-- `list(dict.fromkeys(kw))`: deduplicate keeping the first occurrence,
preserving order (the later duplicates of the head are removed from the
already deduplicated tail, which computes the same list as removing them
first). -/
def dedupFirst : List (List Char) → List (List Char)
  | [] => []
  | x :: xs => x :: (dedupFirst xs).filter (fun y => ¬ y = x)

/-- `ai_build_filename`: the heuristic "AI-style" SEO filename.  The
`stamp` argument stands for `datetime.datetime.now().strftime("%Y%m%d-%H%M")`. -/
def ai_build_filename (product_type : List Char)
    (colors brand_keywords : List (List Char)) (stamp : List Char) : List Char :=
  let kw0 := (brand_keywords.filter (fun k => ¬ pyStrip k = [])).map seo_slug
  let kw := (dedupFirst kw0).take 4
  let color_part :=
    if colors = [] then []
    else seo_slug (joinSep ['-'] (colors.filter (fun c => ¬ c = [])))
  let prod_part := seo_slug (if product_type = [] then "hat".toList else product_type)
  let parts := kw ++ [prod_part] ++ (if color_part = [] then [] else [color_part])
  let base := joinSep ['-'] (parts.filter (fun p => ¬ p = []))
  if base = [] then stamp else base ++ ['-'] ++ stamp

/-- Character class `[a-z0-9-]` named in the spec for substituted segments. -/
def segmentCharOk (c : Char) : Bool := isLowerAlpha c || isDigitChar c || c = '-'

/-! ## Color classifier -/

/-- The fixed basic-color table, in source order. -/
def BASIC_PALETTE : List (List Char × Nat × Nat × Nat) :=
  [("black".toList, 0, 0, 0), ("white".toList, 255, 255, 255),
   ("gray".toList, 128, 128, 128),
   ("red".toList, 220, 20, 60), ("maroon".toList, 128, 0, 0),
   ("orange".toList, 255, 140, 0), ("brown".toList, 139, 69, 19),
   ("tan".toList, 210, 180, 140),
   ("yellow".toList, 255, 215, 0), ("gold".toList, 218, 165, 32),
   ("green".toList, 34, 139, 34), ("olive".toList, 107, 142, 35),
   ("teal".toList, 0, 128, 128), ("cyan".toList, 0, 139, 139),
   ("turquoise".toList, 64, 224, 208),
   ("blue".toList, 30, 144, 255), ("navy".toList, 0, 0, 128),
   ("royal".toList, 65, 105, 225),
   ("purple".toList, 128, 0, 128), ("violet".toList, 138, 43, 226),
   ("pink".toList, 255, 105, 180), ("magenta".toList, 255, 0, 255),
   ("burgundy".toList, 128, 0, 32), ("charcoal".toList, 54, 69, 79)]

/-- `_rgb_dist`: squared Euclidean distance over the three channels. -/
def rgb_dist (a b : Nat × Nat × Nat) : Int :=
  ((a.1 : Int) - b.1) ^ 2 + ((a.2.1 : Int) - b.2.1) ^ 2 +
    ((a.2.2 : Int) - b.2.2) ^ 2

/-- The loop body of `nearest_basic_color`: keep the strictly closer
entry. -/
def nearest_step (rgb : Nat × Nat × Nat) (acc : Option (List Char) × Int)
    (nv : List Char × Nat × Nat × Nat) : Option (List Char) × Int :=
  if rgb_dist rgb nv.2 < acc.2 then (some nv.1, rgb_dist rgb nv.2) else acc

/-- The `best, bestd` pair after the whole `nearest_basic_color` loop,
starting from `best = None, bestd = 10**9`. -/
def nearest_best (rgb : Nat × Nat × Nat) : Option (List Char) × Int :=
  BASIC_PALETTE.foldl (nearest_step rgb)
    ((none : Option (List Char)), (10 ^ 9 : Int))

/-- The `best` component of the loop state `best, bestd`. -/
def bestOf (p : Option (List Char) × Int) : Option (List Char) := p.1

/-- `nearest_basic_color`: scan the table keeping the strictly closer entry,
return the best name. -/
def nearest_basic_color (rgb : Nat × Nat × Nat) : Option (List Char) :=
  bestOf (nearest_best rgb)

/-! ## Canvas compositor and single-item processor -/

/-- `int(sy * 0.08)`, the shadow branch's downward offset.  The IEEE-754
double `0.08` is `0.08·(1+δ)` with `0 < δ < 2.1e-17`, so for every subject
height below `10^9` the rounded product `sy * 0.08` truncates to
`⌊8·sy/100⌋`: when `8·sy/100` is not an integer the product is at least
`0.04` away from every integer, and when it is an integer `k` the product
rounds to `k` exactly since `k·δ` is below half an ulp. -/
def shadowOffset (sy : Nat) : Nat := sy * 8 / 100

/-- `round_aspect(number, key)` from PIL `Image.thumbnail`:
`max(min(math.floor(number), math.ceil(number), key=key), 1)`; Python's
`min` picks its first argument (the floor) on a key tie. -/
def round_aspect (number : ℚ) (key : ℤ → ℚ) : ℤ :=
  max (if key ⌊number⌋ ≤ key ⌈number⌉ then ⌊number⌋ else ⌈number⌉) 1

/-- `fit_within(img, max_w, max_h)` = PIL `Image.thumbnail((max_w, max_h))`
size computation: unchanged when the box already contains the image,
otherwise scale to the box preserving aspect ratio.  Floats are modelled by
exact rationals; every bound proved below holds for the floor and the
ceiling pick alike, so it is independent of float rounding. -/
def fit_within (w h mw mh : Nat) : Nat × Nat :=
  if w ≤ mw ∧ h ≤ mh then (w, h)
  else
    let aspect : ℚ := (w : ℚ) / (h : ℚ)
    if aspect ≤ (mw : ℚ) / (mh : ℚ) then
      ((round_aspect ((mh : ℚ) * aspect)
         (fun n => |aspect - (n : ℚ) / (mh : ℚ)|)).toNat, mh)
    else
      (mw, (round_aspect ((mw : ℚ) / aspect)
         (fun n => if n = 0 then 0 else |aspect - (mw : ℚ) / (n : ℚ)|)).toNat)

/-- `Config` (defaults from the dataclass). -/
structure Config where
  target_w : Nat := 1600
  target_h : Nat := 1600
  margin : Nat := 60
  add_watermark : Bool := true
  wm_path : Option (List Char) := none
  wm_opacity : ℚ := 8 / 100
  wm_scale : ℚ := 4 / 10
  product_type : List Char := "custom hat".toList
  rename_template : List Char := "\x7bproduct\x7d-\x7bcolors\x7d-\x7btimestamp\x7d".toList
  add_shadow : Bool := true
  use_rembg : Bool := true
  export_jpg : Bool := true
  export_png : Bool := false
  move_originals : Bool := true
  finished_folder : Option (List Char) := none

/-- Ambient state outside `process_one`'s own control: availability of the
`rembg` import, the watermark file on disk (`os.path.isfile` plus success
of the `try` block loading and scaling it), its pixel size, the module
`config` flags, and the wall clock. -/
structure Env where
  rembg_available : Bool
  wm_file_ok : Bool
  wm_load_ok : Bool
  wm_w : Nat
  wm_h : Nat
  enable_ai_filenames : Bool
  brand_keywords : List (List Char)
  now : PyTime

/-- One queued input: its basename, whether `Image.open` succeeds, the
subject pixel size (`rembg` preserves size), and the classifier output
`get_dominant_colors(subject)` (a pure function of the pixels, abstracted
here as data of the item). -/
structure Item where
  name : List Char
  decode_ok : Bool
  width : Nat
  height : Nat
  colors : List (List Char)

/-- A composited layer: paste position and pixel size. -/
structure Layer where
  pos : Nat × Nat
  size : Nat × Nat
deriving DecidableEq

/-- The composed canvas: target size, the optional shadow layer, the
subject layer, the optional watermark layer (composited in that order). -/
structure Canvas where
  size : Nat × Nat
  shadow : Option Layer
  subject : Layer
  watermark : Option Layer
deriving DecidableEq

/-- The dict returned by `process_one`. -/
structure ProcessRecord where
  original : List Char
  jpg : List Char
  png : Option (List Char)
  alt_text : List Char
  tags : List (List Char)
  colors : List (List Char)
deriving DecidableEq

/-- Everything observable from one successful `process_one` call: the
returned record, the opaque canvas, the optional transparent canvas, and
the filenames written to the output directory. -/
structure ProcOut where
  record : ProcessRecord
  canvas : Canvas
  transparent : Option Canvas
  files_written : List (List Char)
deriving DecidableEq

/-- `Title`-casing (Python `str.title`, ASCII fragment) used by
`generate_alt_text`; the Boolean tracks whether the previous character was
alphabetic. -/
def pyTitleGo : Bool → List Char → List Char
  | _, [] => []
  | prevAlpha, c :: cs =>
    (if isAsciiAlpha c then (if prevAlpha then pyLower c else pyUpper c) else c)
      :: pyTitleGo (isAsciiAlpha c) cs

def pyTitle (l : List Char) : List Char := pyTitleGo false l

def generate_alt_text (product : List Char) (colors : List (List Char))
    (bg_removed : Bool) : List Char :=
  let mc := if colors = [] then "neutral".toList else joinSep (", ".toList) (colors.take 2)
  pyTitle product ++ " with ".toList ++ mc ++
    (if bg_removed then
      " tones on a transparent or clean background, e-commerce ready product photo.".toList
     else
      " tones on a white studio background, angled product photo for e-commerce.".toList)

def generate_tags (product : List Char) (colors : List (List Char)) :
    List (List Char) :=
  dedupFirst
    ([product, "custom".toList, "laser engraved".toList, "KM2".toList,
      "leather patch".toList, "snapback".toList, "trucker hat".toList,
      "premium".toList, "gift".toList, "local business".toList,
      "Florida".toList, "Lynn Haven".toList] ++ colors)

/-- Lines 216-229: with shadow, `cx = (target_w - sx)//2`,
`cy = (target_h - sy)//2 + int(sy*0.08)` and **both** the shadow and the
fitted subject are composited at `(cx, cy)`; without shadow the subject is
composited at the plain centered position. -/
def subject_layer (cfg : Config) (fitted : Nat × Nat) : Layer :=
  if cfg.add_shadow then
    { pos := ((cfg.target_w - fitted.1) / 2,
              (cfg.target_h - fitted.2) / 2 + shadowOffset fitted.2),
      size := fitted }
  else
    { pos := ((cfg.target_w - fitted.1) / 2, (cfg.target_h - fitted.2) / 2),
      size := fitted }

/-- The shadow layer has the fitted subject's size and is composited at the
same `(cx, cy)` as the subject. -/
def shadow_layer (cfg : Config) (fitted : Nat × Nat) : Option Layer :=
  if cfg.add_shadow then some (subject_layer cfg fitted) else none

/-- Lines 231-246: the watermark is attempted only when the flag is set,
a path is configured and `os.path.isfile` holds; any exception inside the
`try` block (modelled by `wm_load_ok = false`) leaves the canvas untouched.
`int(target_w*wm_scale)`, the aspect-scaled height and
`int(target_h*0.1)` are floats modelled by exact rationals; no claim
depends on their rounding. -/
def watermark_layer (cfg : Config) (env : Env) : Option Layer :=
  if cfg.add_watermark ∧ cfg.wm_path.isSome ∧ env.wm_file_ok ∧ env.wm_load_ok then
    some
      { pos := ((cfg.target_w - (⌊(cfg.target_w : ℚ) * cfg.wm_scale⌋).toNat) / 2,
                cfg.target_h / 10),
        size := ((⌊(cfg.target_w : ℚ) * cfg.wm_scale⌋).toNat,
                 (⌊(⌊(cfg.target_w : ℚ) * cfg.wm_scale⌋ : ℚ) *
                    ((env.wm_h : ℚ) / (env.wm_w : ℚ))⌋).toNat) }
  else none

/-- The success path of `process_one` (lines 209-279), reached when the
source decodes and, if background removal is requested, `rembg` is
available.  `bg_removed` is then exactly `cfg.use_rembg`. -/
def processSuccess (cfg : Config) (env : Env) (it : Item) : ProcOut :=
  let bg_removed := cfg.use_rembg
  let avail_w := cfg.target_w - 2 * cfg.margin
  let avail_h := cfg.target_h - 2 * cfg.margin
  let fitted := fit_within it.width it.height avail_w avail_h
  let canvas : Canvas :=
    { size := (cfg.target_w, cfg.target_h),
      shadow := shadow_layer cfg fitted,
      subject := subject_layer cfg fitted,
      watermark := watermark_layer cfg env }
  let base_name :=
    if env.enable_ai_filenames then
      ai_build_filename cfg.product_type it.colors env.brand_keywords
        (stamp_minute env.now)
    else build_filename cfg.rename_template cfg.product_type it.colors env.now
  let jpg_name := base_name ++ ".jpg".toList
  let png_part : Option (List Char × Canvas) :=
    if bg_removed ∧ cfg.export_png then
      let fitted2 := fit_within it.width it.height avail_w avail_h
      some (base_name ++ ".png".toList,
        { size := (cfg.target_w, cfg.target_h), shadow := none,
          subject :=
            { pos := ((cfg.target_w - fitted2.1) / 2, (cfg.target_h - fitted2.2) / 2),
              size := fitted2 },
          watermark := none })
    else none
  { record :=
      { original := it.name,
        jpg := jpg_name,
        png := png_part.map Prod.fst,
        alt_text := generate_alt_text cfg.product_type it.colors bg_removed,
        tags := generate_tags cfg.product_type it.colors,
        colors := it.colors },
    canvas := canvas,
    transparent := png_part.map Prod.snd,
    files_written := jpg_name :: (png_part.map Prod.fst).toList }

/-- `process_one(path, outdir, cfg)`: `Image.open` failure and the
missing-`rembg` `RuntimeError` are the two exceptions that escape it; the
JPG at line 256 is written unconditionally on the success path. -/
def process_one (cfg : Config) (env : Env) (it : Item) :
    Except (List Char) ProcOut :=
  if ¬ it.decode_ok then Except.error ("cannot identify image file".toList)
  else if cfg.use_rembg ∧ ¬ env.rembg_available then
    Except.error
      ("Background removal requested but rembg is not installed. pip install rembg".toList)
  else Except.ok (processSuccess cfg env it)

/-! ## Queue orchestrator -/

/-- Manifest header (line 575-576): the base four columns plus
`transparent_png` exactly when `use_rembg and export_png`. -/
def manifest_header (cfg : Config) : List (List Char) :=
  ["original_name".toList, "new_filename".toList, "alt_text".toList,
   "tags".toList] ++
    (if cfg.use_rembg ∧ cfg.export_png then ["transparent_png".toList] else [])

/-- One manifest data row (lines 587-589). -/
def manifest_row (cfg : Config) (r : ProcessRecord) : List (List Char) :=
  [r.original, r.jpg, r.alt_text, joinSep ['|'] r.tags] ++
    (if cfg.use_rembg ∧ cfg.export_png then [r.png.getD []] else [])

/-- The per-item loop of `_process_queue` (lines 584-604): each item is
processed inside `try`, a success appends a manifest row, a failure is
recorded (basename and error) and the loop continues. -/
def process_items (cfg : Config) (env : Env) :
    List Item → List (List (List Char)) × List (List Char × List Char)
  | [] => ([], [])
  | it :: rest =>
    let r := process_items cfg env rest
    match process_one cfg env it with
    | Except.ok out => (manifest_row cfg out.record :: r.1, r.2)
    | Except.error e => (r.1, (it.name, e) :: r.2)

/-! ## Concrete fixtures for witnesses and counterexamples -/

def cfgDefault : Config := {}

def envTest : Env :=
  { rembg_available := true, wm_file_ok := false, wm_load_ok := false,
    wm_w := 400, wm_h := 200, enable_ai_filenames := false,
    brand_keywords := [], now := ⟨2025, 10, 30, 12, 54, 0⟩ }

def itemTest : Item :=
  { name := "hat1.jpg".toList, decode_ok := true, width := 100, height := 100,
    colors := ["black".toList] }

/-- A subject as tall as the whole available area (margin 60 on a 1600
canvas). -/
def itemTall : Item :=
  { name := "tall.jpg".toList, decode_ok := true, width := 100, height := 1480,
    colors := ["black".toList] }

def itemBad : Item :=
  { name := "bad.jpg".toList, decode_ok := false, width := 100, height := 100,
    colors := [] }

def itemThird : Item :=
  { name := "hat3.jpg".toList, decode_ok := true, width := 100, height := 100,
    colors := ["white".toList] }

def cfgNoJpg : Config := { export_jpg := false }

def cfgWm : Config := { wm_path := some ("logo.png".toList) }

def cfgPngOnly : Config := { use_rembg := false, export_png := true }

/-! ## Lemmas and claim theorems -/

theorem collapseDashes_subset {c : Char} {l : List Char}
    (h : c ∈ collapseDashes l) : c ∈ l :=
  (List.destutter_sublist ddR l).subset h

theorem collapseDashes_chain (l : List Char) :
    (collapseDashes l).Chain' ddR :=
  List.destutter_is_chain' ddR l

theorem collapseDashes_of_chain {l : List Char} (h : l.Chain' ddR) :
    collapseDashes l = l :=
  List.destutter_of_chain' ddR l h

theorem dropTrailingDashes_cons (c : Char) (cs : List Char) :
    dropTrailingDashes (c :: cs) =
      match dropTrailingDashes cs with
      | [] => if c = '-' then [] else [c]
      | d :: ds => c :: d :: ds := rfl

/-- `dropTrailingDashes` splits the list into its result and an all-hyphen
tail. -/
theorem dropTrailingDashes_spec (l : List Char) :
    ∃ t, l = dropTrailingDashes l ++ t ∧ ∀ c ∈ t, c = '-' := by
  induction l with
  | nil => exact ⟨[], rfl, by simp⟩
  | cons c cs ih =>
    obtain ⟨t, ht, hall⟩ := ih
    cases hD : dropTrailingDashes cs with
    | nil =>
      rw [hD] at ht
      simp only [List.nil_append] at ht
      by_cases hc : c = '-'
      · refine ⟨c :: cs, ?_, ?_⟩
        · rw [dropTrailingDashes_cons, hD]
          simp [hc]
        · intro d hd
          rcases List.mem_cons.mp hd with rfl | hd
          · exact hc
          · exact hall d (ht ▸ hd)
      · refine ⟨t, ?_, hall⟩
        rw [dropTrailingDashes_cons, hD]
        simp [hc, ht]
    | cons d ds =>
      refine ⟨t, ?_, hall⟩
      rw [dropTrailingDashes_cons, hD]
      have : cs = (d :: ds) ++ t := by rw [← hD, ← ht]
      simp [this]

theorem dropTrailingDashes_subset {c : Char} {l : List Char}
    (h : c ∈ dropTrailingDashes l) : c ∈ l := by
  obtain ⟨t, ht, -⟩ := dropTrailingDashes_spec l
  rw [ht]
  exact List.mem_append_left _ h

theorem dropTrailingDashes_chain {l : List Char} (h : l.Chain' ddR) :
    (dropTrailingDashes l).Chain' ddR := by
  obtain ⟨t, ht, -⟩ := dropTrailingDashes_spec l
  rw [ht] at h
  exact (List.chain'_append.mp h).1

theorem dropTrailingDashes_getLast {l : List Char} {c : Char}
    (h : (dropTrailingDashes l).getLast? = some c) : c ≠ '-' := by
  induction l with
  | nil => simp [dropTrailingDashes] at h
  | cons a as ih =>
    rw [dropTrailingDashes_cons] at h
    cases hD : dropTrailingDashes as with
    | nil =>
      rw [hD] at h
      by_cases ha : a = '-'
      · simp [ha] at h
      · simp [ha] at h
        rw [← h]; exact ha
    | cons d ds =>
      rw [hD] at h
      apply ih
      rw [hD]
      simpa using h

theorem dropTrailingDashes_id {l : List Char}
    (h : ∀ c, l.getLast? = some c → c ≠ '-') : dropTrailingDashes l = l := by
  induction l with
  | nil => rfl
  | cons a as ih =>
    cases as with
    | nil =>
      have ha : a ≠ '-' := h a (by simp)
      simp [dropTrailingDashes, ha]
    | cons b bs =>
      have hrec : dropTrailingDashes (b :: bs) = b :: bs := by
        apply ih
        intro c hc
        exact h c (by simpa using hc)
      rw [dropTrailingDashes_cons, hrec]

theorem head?_dropWhile {p : Char → Bool} {l : List Char} {a : Char}
    (h : (l.dropWhile p).head? = some a) : p a = false := by
  induction l with
  | nil => simp [List.dropWhile] at h
  | cons c cs ih =>
    rw [List.dropWhile_cons] at h
    by_cases hc : p c = true
    · simp only [hc, if_true] at h
      exact ih h
    · rw [if_neg hc] at h
      have hca : c = a := by simpa using h
      subst hca
      simpa using hc

theorem dropWhile_id {p : Char → Bool} {l : List Char}
    (h : ∀ a, l.head? = some a → p a = false) : l.dropWhile p = l := by
  cases l with
  | nil => rfl
  | cons c cs =>
    have hc := h c (by simp)
    rw [List.dropWhile_cons, hc]
    rfl

theorem stripDashes_subset {c : Char} {l : List Char}
    (h : c ∈ stripDashes l) : c ∈ l :=
  (List.dropWhile_sublist _).subset (dropTrailingDashes_subset h)

theorem stripDashes_chain {l : List Char} (h : l.Chain' ddR) :
    (stripDashes l).Chain' ddR :=
  dropTrailingDashes_chain (h.suffix (List.dropWhile_suffix _))

theorem stripDashes_head {l : List Char} {c : Char}
    (h : (stripDashes l).head? = some c) : c ≠ '-' := by
  unfold stripDashes at h
  obtain ⟨t, ht, -⟩ := dropTrailingDashes_spec (l.dropWhile (fun x => x = '-'))
  have hh : (l.dropWhile (fun x => x = '-')).head? = some c := by
    cases hD : dropTrailingDashes (l.dropWhile (fun x => x = '-')) with
    | nil => rw [hD] at h; simp at h
    | cons d ds =>
      rw [hD] at h
      rw [ht, hD]
      simpa using h
  have := head?_dropWhile hh
  simpa using this

theorem stripDashes_getLast {l : List Char} {c : Char}
    (h : (stripDashes l).getLast? = some c) : c ≠ '-' :=
  dropTrailingDashes_getLast h

theorem stripDashes_id {l : List Char}
    (hh : ∀ c, l.head? = some c → c ≠ '-')
    (hl : ∀ c, l.getLast? = some c → c ≠ '-') : stripDashes l = l := by
  unfold stripDashes
  rw [dropWhile_id (fun a ha => by simpa using hh a ha)]
  exact dropTrailingDashes_id hl

theorem map_id_of_mem {f : Char → Char} {l : List Char}
    (h : ∀ a ∈ l, f a = a) : l.map f = l := by
  induction l with
  | nil => rfl
  | cons a as ih =>
    simp only [List.map_cons, h a (by simp), List.cons.injEq, true_and]
    exact ih fun b hb => h b (by simp [hb])

theorem stripCollapse_NF (l : List Char) :
    SlugNF (stripDashes (collapseDashes l)) :=
  ⟨stripDashes_chain (collapseDashes_chain l),
   fun _ h => stripDashes_head h, fun _ h => stripDashes_getLast h⟩

theorem stripCollapse_fix {l : List Char} (h : SlugNF l) :
    stripDashes (collapseDashes l) = l := by
  rw [collapseDashes_of_chain h.1]
  exact stripDashes_id h.2.1 h.2.2

theorem pyLower_keep : ∀ c ∈ keepChars, pyLower c = c := by decide

theorem keep_ne_space : ∀ c ∈ keepChars, c ≠ ' ' := by decide

theorem pyLower_fix {c : Char}
    (h : isLowerAlpha c = true ∨ isDigitChar c = true ∨ c = '-') :
    pyLower c = c := by
  rcases h with h | h | h
  · simp only [isLowerAlpha, Bool.and_eq_true, decide_eq_true_eq] at h
    unfold pyLower
    rw [if_neg (by omega)]
  · simp only [isDigitChar, Bool.and_eq_true, decide_eq_true_eq] at h
    unfold pyLower
    rw [if_neg (by omega)]
  · subst h; decide

theorem sanitize_slug_mem {s : List Char} {c : Char}
    (h : c ∈ sanitize_slug s) : c ∈ keepChars := by
  simp only [sanitize_slug] at h
  split at h
  · have himg : ∀ x ∈ "image".toList, x ∈ keepChars := by decide
    exact himg c h
  · have h2 := collapseDashes_subset (stripDashes_subset h)
    exact of_decide_eq_true (List.mem_filter.mp h2).2

theorem sanitize_slug_cases (s : List Char) :
    sanitize_slug s = "image".toList ∨
      (sanitize_slug s ≠ [] ∧ SlugNF (sanitize_slug s)) := by
  simp only [sanitize_slug]
  split
  · exact Or.inl rfl
  · next h => exact Or.inr ⟨h, stripCollapse_NF _⟩

theorem sanitize_slug_fix {l : List Char} (hmem : ∀ c ∈ l, c ∈ keepChars)
    (hnf : SlugNF l) (hne : l ≠ []) : sanitize_slug l = l := by
  have h1 : l.map pyLower = l :=
    map_id_of_mem fun c hc => pyLower_keep c (hmem c hc)
  have h2 : l.map (fun c => if c = ' ' then '-' else c) = l :=
    map_id_of_mem fun c hc => if_neg (keep_ne_space c (hmem c hc))
  have h3 : l.filter (fun c => c ∈ keepChars) = l :=
    List.filter_eq_self.mpr fun c hc => by simpa using hmem c hc
  simp only [sanitize_slug, h1, h2, h3, stripCollapse_fix hnf, if_neg hne]

theorem sanitize_slug_image : sanitize_slug ("image".toList) = "image".toList := by
  decide

/-- `seo_slug`'s final hyphen-run collapse is the identity on the already
collapsed-and-stripped string. -/
theorem seo_slug_eq (s : List Char) :
    seo_slug s = stripDashes (collapseDashes
      ((s.map pyLower).map
        (fun c => if isLowerAlpha c || isDigitChar c then c else '-'))) := by
  simp only [seo_slug]
  exact collapseDashes_of_chain (stripCollapse_NF _).1

theorem seo_slug_NF (s : List Char) : SlugNF (seo_slug s) := by
  rw [seo_slug_eq]
  exact stripCollapse_NF _

theorem seo_slug_charset {s : List Char} {c : Char} (h : c ∈ seo_slug s) :
    isLowerAlpha c = true ∨ isDigitChar c = true ∨ c = '-' := by
  rw [seo_slug_eq] at h
  have h2 := collapseDashes_subset (stripDashes_subset h)
  obtain ⟨a, -, ha⟩ := List.mem_map.mp h2
  by_cases hcond : (isLowerAlpha a || isDigitChar a) = true
  · rw [if_pos hcond] at ha
    subst ha
    rcases Bool.or_eq_true_iff.mp hcond with h | h
    · exact Or.inl h
    · exact Or.inr (Or.inl h)
  · rw [if_neg hcond] at ha
    exact Or.inr (Or.inr ha.symm)

theorem seo_slug_fix {l : List Char}
    (hmem : ∀ c ∈ l, isLowerAlpha c = true ∨ isDigitChar c = true ∨ c = '-')
    (hnf : SlugNF l) : seo_slug l = l := by
  have h1 : l.map pyLower = l :=
    map_id_of_mem fun c hc => pyLower_fix (hmem c hc)
  have h2 : l.map (fun c => if isLowerAlpha c || isDigitChar c then c else '-') = l := by
    refine map_id_of_mem fun c hc => ?_
    rcases hmem c hc with h | h | h
    · rw [if_pos (by simp [h])]
    · rw [if_pos (by simp [h])]
    · subst h; simp
  have h4 : collapseDashes l = l := collapseDashes_of_chain hnf.1
  have h5 : stripDashes l = l := stripDashes_id hnf.2.1 hnf.2.2
  simp only [seo_slug, h1, h2, h4, h5]

theorem joinSep_mem {sep : List Char} {L : List (List Char)} {c : Char}
    (h : c ∈ joinSep sep L) : c ∈ sep ∨ ∃ l ∈ L, c ∈ l := by
  induction L with
  | nil => simp [joinSep] at h
  | cons x xs ih =>
    cases xs with
    | nil =>
      simp only [joinSep] at h
      exact Or.inr ⟨x, by simp, h⟩
    | cons y ys =>
      simp only [joinSep, List.append_assoc, List.mem_append] at h
      rcases h with h | h | h
      · exact Or.inr ⟨x, by simp, h⟩
      · exact Or.inl h
      · rcases ih h with h | ⟨l, hl, hc⟩
        · exact Or.inl h
        · exact Or.inr ⟨l, by simp [List.mem_cons.mp hl], hc⟩

theorem digitChar_digit (k : Nat) : isDigitChar (digitChar k) = true := by
  unfold digitChar
  have h : k % 10 < 10 := Nat.mod_lt k (by omega)
  generalize k % 10 = r at h ⊢
  interval_cases r <;> decide

theorem natDigitsGo_digits :
    ∀ fuel n, ∀ c ∈ natDigitsGo fuel n, isDigitChar c = true := by
  intro fuel
  induction fuel with
  | zero =>
    intro n c hc
    have hc2 : c = digitChar n := by simpa [natDigitsGo] using hc
    rw [hc2]
    exact digitChar_digit n
  | succ f ih =>
    intro n c hc
    unfold natDigitsGo at hc
    split at hc
    · rw [List.mem_singleton.mp hc]
      exact digitChar_digit n
    · rcases List.mem_append.mp hc with h | h
      · exact ih (n / 10) c h
      · rw [List.mem_singleton.mp h]
        exact digitChar_digit _

theorem natDigits_digits (n : Nat) : ∀ c ∈ natDigits n, isDigitChar c = true :=
  natDigitsGo_digits n n

theorem zpad_digits {w n : Nat} {c : Char} (h : c ∈ zpad w n) :
    isDigitChar c = true := by
  unfold zpad at h
  rcases List.mem_append.mp h with h | h
  · rw [List.eq_of_mem_replicate h]; decide
  · exact natDigits_digits n c h

theorem timestamp_charset {t : PyTime} {c : Char} (h : c ∈ timestamp_str t) :
    isDigitChar c = true ∨ c = '-' := by
  unfold timestamp_str at h
  simp only [List.append_assoc, List.mem_append, List.mem_singleton] at h
  rcases h with h | h | h | h | h | h | h
  · exact Or.inl (zpad_digits h)
  · exact Or.inl (zpad_digits h)
  · exact Or.inl (zpad_digits h)
  · exact Or.inr h
  · exact Or.inl (zpad_digits h)
  · exact Or.inl (zpad_digits h)
  · exact Or.inl (zpad_digits h)

theorem afterField_length (rest : List Char) :
    (afterField rest).length ≤ rest.length := by
  unfold afterField
  have h1 := (List.dropWhile_sublist (l := rest) (fun d => ¬ d = rbrace)).length_le
  simp only [List.length_drop]
  omega

theorem mem_of_mem_dedupFirst :
    ∀ {l : List (List Char)} {x : List Char}, x ∈ dedupFirst l → x ∈ l := by
  intro l
  induction l with
  | nil => intro x h; simp [dedupFirst] at h
  | cons a as ih =>
    intro x h
    rcases List.mem_cons.mp h with rfl | h
    · exact List.mem_cons_self _ _
    · exact List.mem_cons_of_mem a (ih (List.mem_of_mem_filter h))

theorem dedupFirst_nodup : ∀ l : List (List Char), (dedupFirst l).Nodup := by
  intro l
  induction l with
  | nil => simp [dedupFirst]
  | cons a as ih =>
    refine List.nodup_cons.mpr ⟨fun hmem => ?_, ih.filter _⟩
    have := (List.mem_filter.mp hmem).2
    simp at this

theorem dedupFirst_sublist :
    ∀ l : List (List Char), List.Sublist (dedupFirst l) l := by
  intro l
  induction l with
  | nil => simp [dedupFirst]
  | cons a as ih =>
    exact ((List.filter_sublist (dedupFirst as)).trans ih).cons_cons a

/-! ## Claim theorems — naming engine -/

/-- Claim C9 (confirmed): slugification is idempotent in both naming modes:
for every string `x`, `sanitize_slug (sanitize_slug x) = sanitize_slug x`
(template mode) and `_seo_slug (_seo_slug x) = _seo_slug x` (heuristic
mode). -/
theorem c9_slug_idempotent (s : List Char) :
    sanitize_slug (sanitize_slug s) = sanitize_slug s ∧
    seo_slug (seo_slug s) = seo_slug s := by
  constructor
  · rcases sanitize_slug_cases s with h | ⟨hne, hnf⟩
    · rw [h]; exact sanitize_slug_image
    · exact sanitize_slug_fix (fun c hc => sanitize_slug_mem hc) hnf hne
  · exact seo_slug_fix (fun c hc => seo_slug_charset hc) (seo_slug_NF s)

/-- Claim C4 fails as stated: `sanitize_slug` keeps underscores (its `keep`
set is `[a-z0-9-_]`), so the `\x7bproduct\x7d` segment of
`build_filename` can contain `'_'`, which is outside `[a-z0-9-]`. -/
theorem c4_counterexample :
    '_' ∈ build_filename ("\x7bproduct\x7d".toList) ("km2_hat".toList) []
        ⟨2025, 10, 30, 12, 54, 0⟩ ∧
    segmentCharOk '_' = false := by
  constructor
  · decide
  · decide

/-- Claim C4 (amended): the `\x7bproduct\x7d` segment contains only
characters from `[a-z0-9-_]` (underscores are preserved, not stripped);
the `\x7bcolors\x7d` segment is the unsanitized hyphen-join, so it is in
`[a-z0-9-]` provided every color name is; the `\x7btimestamp\x7d` segment
is always in `[0-9-]`. -/
theorem c4_segment_charsets :
    (∀ (product : List Char) (c : Char),
       c ∈ sanitize_slug product → c ∈ keepChars) ∧
    (∀ (colors : List (List Char)) (c : Char),
       (∀ l ∈ colors, ∀ d ∈ l, segmentCharOk d = true) →
       c ∈ joinSep ['-'] colors → segmentCharOk c = true) ∧
    (∀ (t : PyTime) (c : Char), c ∈ timestamp_str t →
       (isDigitChar c = true ∨ c = '-') ∧ segmentCharOk c = true) := by
  refine ⟨fun product c h => sanitize_slug_mem h, ?_, ?_⟩
  · intro colors c hall hc
    rcases joinSep_mem hc with h | ⟨l, hl, hcl⟩
    · have : c = '-' := by simpa using h
      simp [segmentCharOk, this]
    · exact hall l hl c hcl
  · intro t c hc
    refine ⟨timestamp_charset hc, ?_⟩
    rcases timestamp_charset hc with h | h
    · simp [segmentCharOk, h]
    · simp [segmentCharOk, h]

theorem c4_segment_charsets_witness :
    'h' ∈ keepChars ∧ segmentCharOk 'b' = true ∧ segmentCharOk '2' = true :=
  ⟨c4_segment_charsets.1 ("Hat".toList) 'h' (by decide),
   c4_segment_charsets.2.1 ["black".toList] 'b' (by decide) (by decide),
   (c4_segment_charsets.2.2 ⟨2025, 1, 2, 3, 4, 5⟩ '2' (by decide)).2⟩

/-- Claim C8 (confirmed): heuristic mode builds
`keywords-product-colors-timestamp` with slugified keywords deduplicated
preserving first-seen order and capped at 4, empty segments omitted, and
the timestamp alone when the base is empty; on the given scenario the base
is `km2-trucker-custom-hat-black-<timestamp>`. -/
theorem c8_heuristic_filename :
    (∀ stamp : List Char,
       ai_build_filename ("custom hat".toList) ["black".toList]
         ["KM2".toList, "KM2".toList, "Trucker".toList] stamp
         = "km2-trucker-custom-hat-black-".toList ++ stamp) ∧
    (∀ stamp : List Char, ai_build_filename ("!!!".toList) [] [] stamp = stamp) ∧
    (∀ ks : List (List Char),
       (dedupFirst ks).Nodup ∧ List.Sublist (dedupFirst ks) ks ∧
       ((dedupFirst ks).take 4).length ≤ 4) := by
  refine ⟨fun stamp => rfl, fun stamp => rfl, fun ks => ?_⟩
  refine ⟨dedupFirst_nodup ks, dedupFirst_sublist ks, ?_⟩
  rw [List.length_take]
  omega

/-! ## Claim theorems — color classifier -/

theorem nearest_step_fst (rgb : Nat × Nat × Nat) (acc : Option (List Char) × Int)
    (nv : List Char × Nat × Nat × Nat) :
    (nearest_step rgb acc nv).1 = acc.1 ∨ (nearest_step rgb acc nv).1 = some nv.1 := by
  unfold nearest_step
  split
  · exact Or.inr rfl
  · exact Or.inl rfl

theorem nearest_step_some (rgb : Nat × Nat × Nat) (acc : Option (List Char) × Int)
    (nv : List Char × Nat × Nat × Nat) (h : acc.1.isSome = true) :
    (nearest_step rgb acc nv).1.isSome = true := by
  unfold nearest_step
  split
  · rfl
  · exact h

theorem foldl_nearest_mem (rgb : Nat × Nat × Nat) :
    ∀ (L : List (List Char × Nat × Nat × Nat)) (acc : Option (List Char) × Int),
      (L.foldl (nearest_step rgb) acc).1 = acc.1 ∨
        ∃ p ∈ L, (L.foldl (nearest_step rgb) acc).1 = some p.1 := by
  intro L
  induction L with
  | nil => intro acc; exact Or.inl rfl
  | cons b bs ih =>
    intro acc
    rw [List.foldl_cons]
    rcases ih (nearest_step rgb acc b) with h | ⟨p, hp, hs⟩
    · rcases nearest_step_fst rgb acc b with h2 | h2
      · exact Or.inl (h.trans h2)
      · exact Or.inr ⟨b, by simp, h.trans h2⟩
    · exact Or.inr ⟨p, by simp [hp], hs⟩

theorem foldl_nearest_some (rgb : Nat × Nat × Nat) :
    ∀ (L : List (List Char × Nat × Nat × Nat)) (acc : Option (List Char) × Int),
      acc.1.isSome = true → (L.foldl (nearest_step rgb) acc).1.isSome = true := by
  intro L
  induction L with
  | nil => intro acc h; exact h
  | cons b bs ih =>
    intro acc h
    rw [List.foldl_cons]
    exact ih _ (nearest_step_some rgb acc b h)

set_option maxRecDepth 8000 in
/-- Claim C10 (confirmed): for every RGB triple with components in 0..255,
`nearest_basic_color` returns some name of the fixed `BASIC_PALETTE`; the
initial best distance `10^9` strictly exceeds the maximum squared distance
`3*255^2`, so the `None` initial value never survives the first
iteration. -/
theorem c10_nearest_total (rgb : Nat × Nat × Nat)
    (h1 : rgb.1 ≤ 255) (h2 : rgb.2.1 ≤ 255) (h3 : rgb.2.2 ≤ 255) :
    ∃ name, nearest_basic_color rgb = some name ∧
      name ∈ BASIC_PALETTE.map Prod.fst ∧
      rgb_dist rgb (0, 0, 0) ≤ 3 * 255 ^ 2 ∧ (3 * 255 ^ 2 : Int) < 10 ^ 9 := by
  have hdist : rgb_dist rgb (0, 0, 0) ≤ 3 * 255 ^ 2 := by
    obtain ⟨r, g, b⟩ := rgb
    unfold rgb_dist
    dsimp only at h1 h2 h3 ⊢
    have hr : (r : Int) ≤ 255 := by exact_mod_cast h1
    have hg : (g : Int) ≤ 255 := by exact_mod_cast h2
    have hb : (b : Int) ≤ 255 := by exact_mod_cast h3
    have hr0 : (0 : Int) ≤ r := Int.ofNat_nonneg r
    have hg0 : (0 : Int) ≤ g := Int.ofNat_nonneg g
    have hb0 : (0 : Int) ≤ b := Int.ofNat_nonneg b
    have hr2 : ((r : Int)) ^ 2 ≤ 255 ^ 2 := pow_le_pow_left₀ hr0 hr 2
    have hg2 : ((g : Int)) ^ 2 ≤ 255 ^ 2 := pow_le_pow_left₀ hg0 hg 2
    have hb2 : ((b : Int)) ^ 2 ≤ 255 ^ 2 := pow_le_pow_left₀ hb0 hb 2
    push_cast
    simp only [sub_zero]
    linarith
  have hin : rgb_dist rgb (0, 0, 0) < 10 ^ 9 :=
    lt_of_le_of_lt hdist (by norm_num)
  have hval0 : nearest_basic_color rgb = bestOf (nearest_best rgb) := rfl
  have hbo : ∀ p : Option (List Char) × Int, bestOf p = p.1 := fun p => rfl
  have hval : nearest_basic_color rgb = (nearest_best rgb).1 := by
    rw [hval0, hbo]
  have hbest : nearest_best rgb =
      BASIC_PALETTE.foldl (nearest_step rgb)
        ((none : Option (List Char)), (10 ^ 9 : Int)) := rfl
  have hsome : (nearest_basic_color rgb).isSome = true := by
    rw [hval, hbest]
    unfold BASIC_PALETTE
    rw [List.foldl_cons]
    apply foldl_nearest_some
    unfold nearest_step
    rw [if_pos hin]
    rfl
  obtain ⟨name, hname⟩ := Option.isSome_iff_exists.mp hsome
  refine ⟨name, hname, ?_, hdist, by norm_num⟩
  have hmem := foldl_nearest_mem rgb BASIC_PALETTE
    ((none : Option (List Char)), (10 ^ 9 : Int))
  rw [hval, hbest] at hname
  rcases hmem with h | ⟨p, hp, hs⟩
  · rw [h] at hname
    simp at hname
  · rw [hs] at hname
    injection hname with h
    rw [← h]
    exact List.mem_map_of_mem Prod.fst hp

/-! ## Compositor and processor lemmas -/

theorem round_aspect_toNat_le {number : ℚ} {key : ℤ → ℚ} {m : Nat}
    (hm : 1 ≤ m) (hn : number ≤ (m : ℚ)) :
    (round_aspect number key).toNat ≤ m := by
  unfold round_aspect
  have hc : ⌈number⌉ ≤ (m : ℤ) := by
    rw [Int.ceil_le]
    exact_mod_cast hn
  have hf : ⌊number⌋ ≤ (m : ℤ) := le_trans (Int.floor_le_ceil number) hc
  rw [Int.toNat_le]
  split <;> omega

theorem fit_within_bounds {w h mw mh : Nat}
    (hw : 1 ≤ w) (hh : 1 ≤ h) (hmw : 1 ≤ mw) (hmh : 1 ≤ mh) :
    (fit_within w h mw mh).1 ≤ w ∧ (fit_within w h mw mh).2 ≤ h ∧
      (fit_within w h mw mh).1 ≤ mw ∧ (fit_within w h mw mh).2 ≤ mh := by
  have hq_h : (0 : ℚ) < (h : ℚ) := by exact_mod_cast hh
  have hq_w : (0 : ℚ) < (w : ℚ) := by exact_mod_cast hw
  have hq_mw : (0 : ℚ) < (mw : ℚ) := by exact_mod_cast hmw
  have hq_mh : (0 : ℚ) < (mh : ℚ) := by exact_mod_cast hmh
  unfold fit_within
  split
  · next hin => exact ⟨le_rfl, le_rfl, hin.1, hin.2⟩
  · next hout =>
    dsimp only
    split
    · next hcond =>
      have hmh_lt_h : mh < h := by
        by_contra hge
        push_neg at hge
        apply hout
        refine ⟨?_, hge⟩
        have h1 : (w : ℚ) * mh ≤ (mw : ℚ) * h := (div_le_div_iff₀ hq_h hq_mh).mp hcond
        have h2 : (mw : ℚ) * h ≤ (mw : ℚ) * mh :=
          mul_le_mul_of_nonneg_left (by exact_mod_cast hge) (le_of_lt hq_mw)
        have h4 : (w : ℚ) ≤ mw := le_of_mul_le_mul_right (le_trans h1 h2) hq_mh
        exact_mod_cast h4
      have hn1 : (mh : ℚ) * ((w : ℚ) / (h : ℚ)) ≤ (w : ℚ) := by
        rw [mul_div_assoc', div_le_iff₀ hq_h]
        have hmhh : (mh : ℚ) ≤ (h : ℚ) := by exact_mod_cast le_of_lt hmh_lt_h
        nlinarith [hq_w.le]
      have hn2 : (mh : ℚ) * ((w : ℚ) / (h : ℚ)) ≤ (mw : ℚ) := by
        have hs := mul_le_mul_of_nonneg_left hcond (le_of_lt hq_mh)
        calc (mh : ℚ) * ((w : ℚ) / (h : ℚ))
            ≤ (mh : ℚ) * ((mw : ℚ) / (mh : ℚ)) := hs
          _ = (mw : ℚ) := by field_simp
      exact ⟨round_aspect_toNat_le hw hn1, le_of_lt hmh_lt_h,
        round_aspect_toNat_le hmw hn2, le_rfl⟩
    · next hcond =>
      push_neg at hcond
      have hmw_lt_w : mw < w := by
        by_contra hge
        push_neg at hge
        have hmh_lt : mh < h := by
          rcases Nat.lt_or_ge mh h with h1 | h1
          · exact h1
          · exact absurd ⟨hge, h1⟩ hout
        have h1 : (w : ℚ) / h ≤ (mw : ℚ) / mh := by
          rw [div_le_div_iff₀ hq_h hq_mh]
          have ha : (w : ℚ) ≤ mw := by exact_mod_cast hge
          have hb : (mh : ℚ) ≤ h := by exact_mod_cast le_of_lt hmh_lt
          nlinarith [hq_w.le, hq_mh.le]
        exact absurd hcond (not_lt.mpr h1)
      have hdiv : (mw : ℚ) / ((w : ℚ) / (h : ℚ)) = (mw : ℚ) * h / w :=
        div_div_eq_mul_div (mw : ℚ) (w : ℚ) (h : ℚ)
      have hn1 : (mw : ℚ) / ((w : ℚ) / (h : ℚ)) ≤ (h : ℚ) := by
        rw [hdiv, div_le_iff₀ hq_w]
        have hmww : (mw : ℚ) ≤ (w : ℚ) := by exact_mod_cast le_of_lt hmw_lt_w
        nlinarith [hq_h.le]
      have hn2 : (mw : ℚ) / ((w : ℚ) / (h : ℚ)) ≤ (mh : ℚ) := by
        rw [hdiv, div_le_iff₀ hq_w]
        have hlt := (div_lt_div_iff₀ hq_mh hq_h).mp hcond
        nlinarith
      exact ⟨le_of_lt hmw_lt_w, round_aspect_toNat_le hh hn1, le_rfl,
        round_aspect_toNat_le hmh hn2⟩

theorem process_one_ok_elim {cfg : Config} {env : Env} {it : Item} {out : ProcOut}
    (h : process_one cfg env it = Except.ok out) :
    out = processSuccess cfg env it := by
  unfold process_one at h
  split at h
  · simp at h
  · split at h
    · simp at h
    · injection h with h
      exact h.symm

theorem process_one_ok_of {cfg : Config} {env : Env} {it : Item}
    (hd : it.decode_ok = true)
    (hr : cfg.use_rembg = true → env.rembg_available = true) :
    process_one cfg env it = Except.ok (processSuccess cfg env it) := by
  unfold process_one
  rw [if_neg (by simp [hd]), if_neg ?_]
  rintro ⟨h1, h2⟩
  exact h2 (hr h1)

theorem processSuccess_subject (cfg : Config) (env : Env) (it : Item) :
    (processSuccess cfg env it).canvas.subject =
      subject_layer cfg (fit_within it.width it.height
        (cfg.target_w - 2 * cfg.margin) (cfg.target_h - 2 * cfg.margin)) := rfl

theorem processSuccess_shadow (cfg : Config) (env : Env) (it : Item) :
    (processSuccess cfg env it).canvas.shadow =
      shadow_layer cfg (fit_within it.width it.height
        (cfg.target_w - 2 * cfg.margin) (cfg.target_h - 2 * cfg.margin)) := rfl

theorem processSuccess_watermark (cfg : Config) (env : Env) (it : Item) :
    (processSuccess cfg env it).canvas.watermark = watermark_layer cfg env := rfl

theorem processSuccess_files (cfg : Config) (env : Env) (it : Item) :
    (processSuccess cfg env it).files_written =
      (processSuccess cfg env it).record.jpg ::
        ((processSuccess cfg env it).record.png).toList := rfl

theorem processSuccess_png_none (cfg : Config) (env : Env) (it : Item)
    (hc : ¬(cfg.use_rembg = true ∧ cfg.export_png = true)) :
    (processSuccess cfg env it).record.png = none := by
  unfold processSuccess
  dsimp only
  rw [if_neg hc]
  rfl

theorem processSuccess_png_some (cfg : Config) (env : Env) (it : Item)
    (hc : cfg.use_rembg = true ∧ cfg.export_png = true) :
    (processSuccess cfg env it).record.png.isSome = true := by
  unfold processSuccess
  dsimp only
  rw [if_pos hc]
  rfl

theorem c10_nearest_total_witness :
    ∃ name, nearest_basic_color (30, 144, 255) = some name ∧
      name ∈ BASIC_PALETTE.map Prod.fst ∧
      rgb_dist (30, 144, 255) (0, 0, 0) ≤ 3 * 255 ^ 2 ∧
      (3 * 255 ^ 2 : Int) < 10 ^ 9 :=
  c10_nearest_total (30, 144, 255) (by decide) (by decide) (by decide)

/-! ## Claim theorems — compositor, processor, orchestrator -/

/-- Claim C1 fails as stated: with the default config (shadow enabled) the
same 100x100 subject is pasted at `(750, 758)`, while with shadow disabled
it is pasted at `(750, 750)`: the downward offset `int(sy*0.08)` is applied
to the subject layer too, so the paste position depends on `add_shadow`. -/
theorem c1_counterexample :
    (process_one cfgDefault envTest itemTest).map (fun o => o.canvas.subject.pos)
        = Except.ok (750, 758) ∧
    (process_one { cfgDefault with add_shadow := false } envTest itemTest).map
        (fun o => o.canvas.subject.pos) = Except.ok (750, 750) ∧
    cfgDefault.add_shadow = true ∧ ((750, 758) : Nat × Nat) ≠ (750, 750) :=
  ⟨rfl, rfl, rfl, by decide⟩

/-- Claim C1 (amended): the subject is pasted at
`x = (target_w - subject_w)//2` and
`y = (target_h - subject_h)//2 + int(subject_h*0.08)` when shadow is
enabled (`+ 0` otherwise): the downward offset is applied to the shadow
*and* the subject, which are composited at the same position; hence the
subject's paste position agrees between the two shadow settings exactly
when `int(subject_h*0.08) = 0`. -/
theorem c1_subject_position :
    (∀ (cfg : Config) (fw fh : Nat),
       (subject_layer cfg (fw, fh)).pos =
         ((cfg.target_w - fw) / 2,
          (cfg.target_h - fh) / 2 +
            (if cfg.add_shadow then shadowOffset fh else 0)) ∧
       ((subject_layer { cfg with add_shadow := true } (fw, fh)
           = subject_layer { cfg with add_shadow := false } (fw, fh)) ↔
         shadowOffset fh = 0)) ∧
    (∀ (cfg : Config) (env : Env) (it : Item) (out : ProcOut),
       process_one cfg env it = Except.ok out →
       out.canvas.subject = subject_layer cfg
         (fit_within it.width it.height (cfg.target_w - 2 * cfg.margin)
           (cfg.target_h - 2 * cfg.margin)) ∧
       out.canvas.shadow =
         (if cfg.add_shadow then some out.canvas.subject else none)) := by
  constructor
  · intro cfg fw fh
    constructor
    · unfold subject_layer
      split
      · next hs => simp [hs]
      · next hs =>
        simp only [Bool.not_eq_true] at hs
        simp [hs]
    · constructor
      · intro heq
        have hy := congrArg (fun L => L.pos.2) heq
        simp only [subject_layer, if_pos, if_neg] at hy
        simp at hy
        omega
      · intro h0
        simp [subject_layer, h0]
  · intro cfg env it out h
    obtain rfl := process_one_ok_elim h
    refine ⟨processSuccess_subject cfg env it, ?_⟩
    rw [processSuccess_shadow, processSuccess_subject]
    unfold shadow_layer
    rfl

theorem c1_subject_position_witness :
    (processSuccess cfgDefault envTest itemTest).canvas.subject =
      subject_layer cfgDefault
        (fit_within itemTest.width itemTest.height
          (cfgDefault.target_w - 2 * cfgDefault.margin)
          (cfgDefault.target_h - 2 * cfgDefault.margin)) ∧
    (processSuccess cfgDefault envTest itemTest).canvas.shadow =
      (if cfgDefault.add_shadow then
        some (processSuccess cfgDefault envTest itemTest).canvas.subject
       else none) :=
  c1_subject_position.2 cfgDefault envTest itemTest
    (processSuccess cfgDefault envTest itemTest) rfl

/-- Claim C2 fails as stated: with `export_jpg = False` the success path of
`process_one` still writes exactly one file, the JPG (line 256 is
unconditional). -/
theorem c2_counterexample :
    cfgNoJpg.export_jpg = false ∧
    (process_one cfgNoJpg envTest itemTest).map (fun o => o.files_written)
      = Except.ok ["custom-hat-black-20251030-125400.jpg".toList] :=
  ⟨rfl, rfl⟩

/-- Claim C2 (amended): `process_one` never consults `export_jpg` (its
result is unchanged under any value of the flag), and on every successful
run the JPG is among the files written. -/
theorem c2_jpg_always_written :
    (∀ (cfg : Config) (b : Bool) (env : Env) (it : Item),
       process_one { cfg with export_jpg := b } env it = process_one cfg env it) ∧
    (∀ (cfg : Config) (env : Env) (it : Item) (out : ProcOut),
       process_one cfg env it = Except.ok out →
       out.record.jpg ∈ out.files_written) := by
  constructor
  · intro cfg b env it
    rfl
  · intro cfg env it out h
    obtain rfl := process_one_ok_elim h
    rw [processSuccess_files]
    exact List.mem_cons_self _ _

theorem c2_jpg_always_written_witness :
    (processSuccess cfgDefault envTest itemTest).record.jpg ∈
      (processSuccess cfgDefault envTest itemTest).files_written :=
  c2_jpg_always_written.2 cfgDefault envTest itemTest
    (processSuccess cfgDefault envTest itemTest) rfl

/-- Claim C3 fails as stated: a 100x1480 subject fits the available area
(1480x1480) exactly, yet with the shadow enabled it is pasted at
`y = 60 + int(1480*0.08) = 178`, so it ends at row 1658 on a 1600-high
canvas: the bottom subject-free border is not `margin = 60`; the subject is
even clipped. -/
theorem c3_counterexample :
    (process_one cfgDefault envTest itemTall).map
        (fun o => (o.canvas.subject.pos, o.canvas.subject.size))
      = Except.ok ((750, 178), (100, 1480)) ∧
    itemTall.height ≤ cfgDefault.target_h - 2 * cfgDefault.margin ∧
    ¬(178 + 1480 + 60 ≤ 1600) :=
  ⟨rfl, by decide, by decide⟩

/-- Claim C3 (amended): when the fitted subject is within the available
area and the config is sane (`2*margin` at most each target dimension), the
left, right and top subject-free borders are at least `margin` for every
setting of the flags; the bottom border is at least `margin` when the
shadow is disabled, and at least `margin - int(0.08*subject_h)` (possibly
negative) when it is enabled; `fit_within` never enlarges the subject
beyond its original size, nor beyond the box. -/
theorem c3_margin_invariant :
    (∀ (cfg : Config) (fw fh : Nat),
       2 * cfg.margin ≤ cfg.target_w → 2 * cfg.margin ≤ cfg.target_h →
       fw ≤ cfg.target_w - 2 * cfg.margin → fh ≤ cfg.target_h - 2 * cfg.margin →
       cfg.margin ≤ (subject_layer cfg (fw, fh)).pos.1 ∧
       (subject_layer cfg (fw, fh)).pos.1 + fw + cfg.margin ≤ cfg.target_w ∧
       cfg.margin ≤ (subject_layer cfg (fw, fh)).pos.2 ∧
       (cfg.add_shadow = false →
         (subject_layer cfg (fw, fh)).pos.2 + fh + cfg.margin ≤ cfg.target_h) ∧
       (subject_layer cfg (fw, fh)).pos.2 + fh + cfg.margin ≤
         cfg.target_h + shadowOffset fh) ∧
    (∀ w h mw mh : Nat, 1 ≤ w → 1 ≤ h → 1 ≤ mw → 1 ≤ mh →
       (fit_within w h mw mh).1 ≤ w ∧ (fit_within w h mw mh).2 ≤ h ∧
       (fit_within w h mw mh).1 ≤ mw ∧ (fit_within w h mw mh).2 ≤ mh) := by
  constructor
  · intro cfg fw fh hmw hmh hfw hfh
    unfold subject_layer
    split
    · next hs =>
      refine ⟨by dsimp only; omega, by dsimp only; omega, by dsimp only; omega,
        ?_, by dsimp only; omega⟩
      intro hfalse
      rw [hs] at hfalse
      cases hfalse
    · next hs =>
      exact ⟨by dsimp only; omega, by dsimp only; omega, by dsimp only; omega,
        fun _ => by dsimp only; omega, by dsimp only; omega⟩
  · intro w h mw mh hw hh hmw hmh
    exact fit_within_bounds hw hh hmw hmh

theorem c3_margin_invariant_witness :
    (cfgDefault.margin ≤ (subject_layer cfgDefault (100, 100)).pos.1 ∧
     (subject_layer cfgDefault (100, 100)).pos.1 + 100 + cfgDefault.margin ≤
       cfgDefault.target_w ∧
     cfgDefault.margin ≤ (subject_layer cfgDefault (100, 100)).pos.2 ∧
     (cfgDefault.add_shadow = false →
       (subject_layer cfgDefault (100, 100)).pos.2 + 100 + cfgDefault.margin ≤
         cfgDefault.target_h) ∧
     (subject_layer cfgDefault (100, 100)).pos.2 + 100 + cfgDefault.margin ≤
       cfgDefault.target_h + shadowOffset 100) ∧
    ((fit_within 100 100 1480 1480).1 ≤ 100 ∧
     (fit_within 100 100 1480 1480).2 ≤ 100 ∧
     (fit_within 100 100 1480 1480).1 ≤ 1480 ∧
     (fit_within 100 100 1480 1480).2 ≤ 1480) :=
  ⟨c3_margin_invariant.1 cfgDefault 100 100 (by decide) (by decide) (by decide)
      (by decide),
   c3_margin_invariant.2 100 100 1480 1480 (by decide) (by decide) (by decide)
      (by decide)⟩

/-- Claim C5 (confirmed): on every successful item, a PNG is written and
reported in the record exactly when `use_rembg` and `export_png` are both
enabled; the manifest header has a fifth `transparent_png` column exactly
then; with background removal disabled the header is the four base columns
and no item writes a PNG. -/
theorem c5_png_column_iff :
    (∀ (cfg : Config) (env : Env) (it : Item) (out : ProcOut),
       process_one cfg env it = Except.ok out →
       (out.record.png.isSome = true ↔
         (cfg.use_rembg = true ∧ cfg.export_png = true)) ∧
       out.files_written.length =
         (if cfg.use_rembg = true ∧ cfg.export_png = true then 2 else 1)) ∧
    (∀ cfg : Config,
       (manifest_header cfg).length =
         (if cfg.use_rembg = true ∧ cfg.export_png = true then 5 else 4)) ∧
    (∀ cfg : Config, cfg.use_rembg = false →
       manifest_header cfg = ["original_name".toList, "new_filename".toList,
         "alt_text".toList, "tags".toList] ∧
       ∀ (env : Env) (it : Item) (out : ProcOut),
         process_one cfg env it = Except.ok out →
         out.record.png = none ∧ out.files_written = [out.record.jpg]) := by
  refine ⟨?_, ?_, ?_⟩
  · intro cfg env it out h
    obtain rfl := process_one_ok_elim h
    by_cases hc : cfg.use_rembg = true ∧ cfg.export_png = true
    · constructor
      · simp [processSuccess_png_some cfg env it hc, hc]
      · rw [processSuccess_files, if_pos hc]
        have hs := processSuccess_png_some cfg env it hc
        rcases hp : (processSuccess cfg env it).record.png with - | p
        · rw [hp] at hs
          cases hs
        · simp
    · constructor
      · simp [processSuccess_png_none cfg env it hc, hc]
      · rw [processSuccess_files, if_neg hc, processSuccess_png_none cfg env it hc]
        rfl
  · intro cfg
    unfold manifest_header
    split
    · rfl
    · rfl
  · intro cfg hu
    constructor
    · unfold manifest_header
      rw [if_neg]
      · rfl
      · rintro ⟨h1, -⟩
        rw [hu] at h1
        cases h1
    · intro env it out h
      obtain rfl := process_one_ok_elim h
      have hc : ¬(cfg.use_rembg = true ∧ cfg.export_png = true) := by
        rintro ⟨h1, -⟩
        rw [hu] at h1
        cases h1
      refine ⟨processSuccess_png_none cfg env it hc, ?_⟩
      rw [processSuccess_files, processSuccess_png_none cfg env it hc]
      rfl

theorem c5_png_column_iff_witness :
    ((processSuccess cfgPngOnly envTest itemTest).record.png.isSome = true ↔
      (cfgPngOnly.use_rembg = true ∧ cfgPngOnly.export_png = true)) ∧
    manifest_header cfgPngOnly = ["original_name".toList, "new_filename".toList,
      "alt_text".toList, "tags".toList] ∧
    (processSuccess cfgPngOnly envTest itemTest).record.png = none :=
  ⟨(c5_png_column_iff.1 cfgPngOnly envTest itemTest
      (processSuccess cfgPngOnly envTest itemTest) rfl).1,
   (c5_png_column_iff.2.2 cfgPngOnly rfl).1,
   ((c5_png_column_iff.2.2 cfgPngOnly rfl).2 envTest itemTest
      (processSuccess cfgPngOnly envTest itemTest) rfl).1⟩

/-- Claim C6 (confirmed): the per-item loop catches each item's exception,
records the failure (original name and error description) and continues:
rows and failures partition the queue in order, and on a 3-item queue whose
second item fails to decode the manifest has exactly the 2 rows of items 1
and 3 while the failure of item 2 is reported separately. -/
theorem c6_failure_isolation :
    (∀ (cfg : Config) (env : Env) (items : List Item),
       (process_items cfg env items).1.length +
         (process_items cfg env items).2.length = items.length) ∧
    (∀ (cfg : Config) (env : Env) (items : List Item),
       (process_items cfg env items).1 =
         items.filterMap (fun it => (process_one cfg env it).toOption.map
           (fun o => manifest_row cfg o.record)) ∧
       (process_items cfg env items).2 =
         items.filterMap (fun it =>
           match process_one cfg env it with
           | Except.ok _ => none
           | Except.error e => some (it.name, e))) ∧
    ((process_items cfgDefault envTest [itemTest, itemBad, itemThird]).1.map
        (fun r => r.headD []) = ["hat1.jpg".toList, "hat3.jpg".toList] ∧
     (process_items cfgDefault envTest [itemTest, itemBad, itemThird]).1.length = 2 ∧
     (process_items cfgDefault envTest [itemTest, itemBad, itemThird]).2 =
       [("bad.jpg".toList, "cannot identify image file".toList)]) := by
  refine ⟨?_, ?_, ?_, ?_, ?_⟩
  · intro cfg env items
    induction items with
    | nil => rfl
    | cons it rest ih =>
      unfold process_items
      cases hpo : process_one cfg env it with
      | ok out =>
        dsimp only
        simp only [List.length_cons]
        omega
      | error e =>
        dsimp only
        simp only [List.length_cons]
        omega
  · intro cfg env items
    constructor
    · induction items with
      | nil => rfl
      | cons it rest ih =>
        unfold process_items
        cases hpo : process_one cfg env it with
        | ok out => simp [List.filterMap_cons, hpo, Except.toOption, ih]
        | error e => simp [List.filterMap_cons, hpo, Except.toOption, ih]
    · induction items with
      | nil => rfl
      | cons it rest ih =>
        unfold process_items
        cases hpo : process_one cfg env it with
        | ok out => simp [List.filterMap_cons, hpo, ih]
        | error e => simp [List.filterMap_cons, hpo, ih]
  · rfl
  · rfl
  · rfl

/-- Claim C7 (confirmed): if the watermark path is absent, the file is
missing, or loading/scaling raises (the `try` block fails), composition is
unchanged from a run with watermarking disabled, and a decodable item still
succeeds. -/
theorem c7_watermark_failure_harmless :
    ∀ (cfg : Config) (env : Env) (it : Item),
      (cfg.wm_path = none ∨ env.wm_file_ok = false ∨ env.wm_load_ok = false) →
      process_one cfg env it =
        process_one { cfg with add_watermark := false } env it ∧
      (it.decode_ok = true → (cfg.use_rembg = true → env.rembg_available = true) →
        ∃ out, process_one cfg env it = Except.ok out) := by
  intro cfg env it hfail
  have h1 : watermark_layer cfg env = none := by
    unfold watermark_layer
    rw [if_neg]
    rintro ⟨-, hp, hf, hl⟩
    rcases hfail with h | h | h
    · rw [h] at hp
      cases hp
    · rw [h] at hf
      cases hf
    · rw [h] at hl
      cases hl
  have h2 : watermark_layer { cfg with add_watermark := false } env = none := by
    unfold watermark_layer
    rw [if_neg]
    rintro ⟨hw, -⟩
    cases hw
  constructor
  · have hs : processSuccess cfg env it =
        processSuccess { cfg with add_watermark := false } env it := by
      unfold processSuccess
      rw [h1, h2]
      rfl
    unfold process_one
    rw [hs]
  · intro hd hr
    exact ⟨processSuccess cfg env it, process_one_ok_of hd hr⟩

theorem c7_watermark_failure_harmless_witness :
    (process_one cfgWm envTest itemTest =
      process_one { cfgWm with add_watermark := false } envTest itemTest) ∧
    (∃ out, process_one cfgWm envTest itemTest = Except.ok out) :=
  ⟨(c7_watermark_failure_harmless cfgWm envTest itemTest (Or.inr (Or.inl rfl))).1,
   (c7_watermark_failure_harmless cfgWm envTest itemTest (Or.inr (Or.inl rfl))).2
     rfl (fun _ => rfl)⟩

end KM2

